import Mathlib

/-!
Shallow embedding of the core of `wrestling_logger` (transcript extraction
pipeline in `wrestling_logger/transcripts.py` and the chunked LLM formatting
pass in `wrestling_logger/ai_format.py`).  Python strings are modelled as
`List Char`; Python `None`-able values as `Option`; raised exceptions as
`Except`; external network effects (yt-dlp metadata / caption downloads and
the OpenAI completion call) as explicit oracle functions passed in.
-/

namespace WrestlingLogger

/-- The whitespace characters recognised by Python's `str.strip` /
`str.split` that can actually occur in this pipeline's data. -/
def isPyWs (c : Char) : Bool :=
  c = ' ' || c = '\t' || c = '\n' || c = '\r'

/-- Python `s.strip()`: trim whitespace from both ends. -/
def pyStrip (s : List Char) : List Char :=
  ((s.dropWhile isPyWs).reverse.dropWhile isPyWs).reverse

/-- The two separator characters consumed by the chunker's skip loop,
`text[pos] in ("\n", " ")` in `_split_into_chunks`. -/
def isChunkSep (c : Char) : Bool :=
  c = '\n' || c = ' '

/-- Python `text.rfind(c, 0, stop)` on the suffix being chunked: the highest
index `i < stop` with `s[i] = c`, or `none` for Python's `-1`. -/
def rfindIn (s : List Char) (c : Char) : Nat → Option Nat
  | 0 => none
  | stop + 1 => if s.get? stop = some c then some stop else rfindIn s c stop

/-- One `if split_at <= pos: split_at = ...` fallback step of
`_split_into_chunks`, relative to the current suffix (Python's `pos` is index
0, its `-1` is `none`): keep a found index when it is positive, otherwise
fall through. -/
def pickFrom (found : Option Nat) (next : Nat) : Nat :=
  match found with
  | some i => if 0 < i then i else next
  | none => next

/-- The cut-point selection of `_split_into_chunks`: the last newline before
`e`, else the last space before `e`, else `e` itself. -/
def pickSplit (s : List Char) (e : Nat) : Nat :=
  pickFrom (rfindIn s '\n' e) (pickFrom (rfindIn s ' ' e) e)

/-- One loop of `_split_into_chunks`, structurally recursive on `fuel`.
The Python loop advances `pos` by at least one character per iteration
whenever `chunk_size >= 1`, so `fuel = text.length` always suffices; with
`chunk_size = 0` the Python loop does not terminate, and the fuel guard makes
the Lean function total there instead. -/
def splitGo (n : Nat) : Nat → List Char → List (List Char)
  | 0, _ => []
  | _, [] => []
  | fuel + 1, s =>
    let len := s.length
    let e := min n len
    let sa := if e < len then pickSplit s e else e
    s.take sa :: splitGo n fuel ((s.drop sa).dropWhile isChunkSep)

/-- `_split_into_chunks(text, chunk_size)` from `ai_format.py`: scan left to
right, cut at the last newline (else space, else hard cut) before the size
limit, and skip separator characters between chunks.  Empty text yields no
chunks. -/
def splitIntoChunks (text : List Char) (chunk_size : Nat) : List (List Char) :=
  splitGo chunk_size text.length text

/-- Python `"\n".join(parts)`: concatenate with a single newline between
consecutive parts. -/
def joinNl : List (List Char) → List Char
  | [] => []
  | [p] => p
  | p :: q :: r => p ++ '\n' :: joinNl (q :: r)

/-- Python `" ".join(parts)`: concatenate with a single space between
consecutive parts. -/
def joinSp : List (List Char) → List Char
  | [] => []
  | [p] => p
  | p :: q :: r => p ++ ' ' :: joinSp (q :: r)

/-- The maximal runs of non-separator characters of a text, in order: the
word sequence the chunking claims compare (separators being the space and
newline characters the chunker cuts on). -/
def wordsOf (s : List Char) : List (List Char) :=
  (s.foldr
    (fun c acc =>
      if isChunkSep c then [] :: acc
      else
        match acc with
        | [] => [[c]]
        | w :: ws => (c :: w) :: ws)
    []).filter (fun w => !w.isEmpty)

/-- One caption track descriptor (`entry` in `transcripts.py`): a dict with
optional `url` and `ext` string values.  `none` models a missing key or a
`None` value (`entry.get(...)` does not distinguish them). -/
structure CaptionEntry where
  url : Option (List Char)
  ext : Option (List Char)
deriving DecidableEq

/-- The value a caption catalog maps a language code to: yt-dlp may store a
single descriptor dict, a list of descriptors, or `None`; `_ensure_list`
normalises all three.  A `single` entry dict is assumed non-empty (hence
truthy) as produced by yt-dlp. -/
inductive EntriesVal where
  | single (e : CaptionEntry)
  | list (es : List CaptionEntry)
  | noneV
deriving DecidableEq

/-- `_ensure_list(entries)`: a list is kept, `None` becomes `[]`, anything
else is wrapped in a one-element list. -/
def ensureList : EntriesVal → List CaptionEntry
  | .list es => es
  | .noneV => []
  | .single e => [e]

/-- Python truthiness of a catalog value, for `if not entries: continue`:
`None` and the empty list are falsy. -/
def entriesTruthy : EntriesVal → Bool
  | .list [] => false
  | .noneV => false
  | .list (_ :: _) => true
  | .single _ => true

/-- A caption catalog: a Python dict from language code to entries, modelled
as an association list in insertion order with distinct keys. -/
abbrev Catalog : Type := List (List Char × EntriesVal)

/-- Python `source.get(lang)`: first value stored under the key, or `none`. -/
def catGet (source : Catalog) (lang : List Char) : Option EntriesVal :=
  match source with
  | [] => none
  | (k, v) :: rest => if k = lang then some v else catGet rest lang

/-- Python `source.values()` in insertion order. -/
def catValues (source : Catalog) : List EntriesVal :=
  source.map Prod.snd

/-- The video metadata fields `_ordered_caption_sources` reads from the
`info` dict: each of the three catalogs is absent (`none`, covering both a
missing key and a falsy value, since the code applies `or {}`) or present. -/
structure VideoInfo where
  requested_subtitles : Option Catalog
  subtitles : Option Catalog
  automatic_captions : Option Catalog

/-- `_ordered_caption_sources(info)`: the requested/preferred catalog, then
manual subtitles, then automatic captions, each included only when
non-empty. -/
def orderedCaptionSources (info : VideoInfo) : List Catalog :=
  (match info.requested_subtitles with
   | some c => if c = ([] : Catalog) then [] else [c]
   | none => []) ++
  (match info.subtitles with
   | some c => if c = ([] : Catalog) then [] else [c]
   | none => []) ++
  (match info.automatic_captions with
   | some c => if c = ([] : Catalog) then [] else [c]
   | none => [])

/-- The parse of one `json3` segment: `seg.get("utf8", "")` modelled as the
string value with missing-key default already applied. -/
structure Json3Seg where
  utf8 : List Char

/-- One `json3` event: `event.get("segs", []) or []` means an absent or
`None` segment list behaves as `[]`. -/
structure Json3Event where
  segs : Option (List Json3Seg)

/-- A parsed `json3` payload: `payload.get("events", [])`. -/
structure Json3Payload where
  events : List Json3Event

/-- `_json3_payload_to_text(payload)`: for every event and segment take its
`utf8` text, replace newlines by spaces, strip, drop empties, and join the
survivors with single spaces (the final `strip` is kept from the source). -/
def json3PayloadToText (payload : Json3Payload) : List Char :=
  pyStrip (joinSp
    (payload.events.foldr
      (fun ev acc =>
        ((ev.segs.getD []).foldr
          (fun seg acc2 =>
            let chunk := pyStrip (seg.utf8.map (fun c => if c = '\n' then ' ' else c))
            if chunk = [] then acc2 else chunk :: acc2)
          []) ++ acc)
      []))

/-- `TIMESTAMP_RE.match(stripped)`: the line starts with
`dd:dd:dd.ddd --> ` (a timestamp range). -/
def matchesTimestamp (s : List Char) : Bool :=
  match s with
  | a :: b :: c1 :: c :: d :: c2 :: e :: f :: dot :: g :: h :: i :: sp :: d1 :: d2 :: gt :: sp2 :: _ =>
    a.isDigit && b.isDigit && c1 = ':' && c.isDigit && d.isDigit && c2 = ':' &&
    e.isDigit && f.isDigit && dot = '.' && g.isDigit && h.isDigit && i.isDigit &&
    sp = ' ' && d1 = '-' && d2 = '-' && gt = '>' && sp2 = ' '
  | _ => false

/-- `CUE_INDEX_RE.match(stripped)`: the line is one or more digits and
nothing else. -/
def matchesCueIndex (s : List Char) : Bool :=
  !s.isEmpty && s.all Char.isDigit

/-- Python `text.splitlines()` restricted to `\n` terminators (the only ones
this pipeline produces); the trailing empty line this split adds for a
trailing newline is dropped by the blank-line filter of the caller, so the
difference from Python is unobservable there. -/
def splitLinesNl (s : List Char) : List (List Char) :=
  s.foldr
    (fun c acc =>
      if c = '\n' then [] :: acc
      else
        match acc with
        | [] => [[c]]
        | l :: ls => (c :: l) :: ls)
    []

/-- Python `stripped.startswith(p)`. -/
def startsWith (p s : List Char) : Bool :=
  decide (p <+: s)

/-- `_strip_caption_markup(raw_text)`: split into lines, strip each, drop
blanks, `WEBVTT`/`NOTE` marker lines, timestamp-range lines and pure
cue-index lines, and join the survivors with single spaces. -/
def stripCaptionMarkup (raw_text : List Char) : List Char :=
  pyStrip (joinSp
    ((splitLinesNl raw_text).foldr
      (fun line acc =>
        let stripped := pyStrip line
        if stripped = [] then acc
        else if startsWith "WEBVTT".data stripped then acc
        else if startsWith "NOTE".data stripped then acc
        else if matchesTimestamp stripped then acc
        else if matchesCueIndex stripped then acc
        else stripped :: acc)
      []))

/-- What downloading a descriptor's URL can yield, as seen by
`_download_caption_entry` after the byte-level concerns are resolved:
`asJson` is the result of `json.loads` on the bytes viewed as a `json3`
payload (`none` when parsing fails), `asText` the (total, thanks to the
`errors="ignore"` fallback) UTF-8 decode of the bytes. -/
structure RawBytes where
  asJson : Option Json3Payload
  asText : List Char

/-- The network oracle for `ydl.urlopen(url).read()`: `none` models any
exception raised while fetching. -/
abbrev Net : Type := List Char → Option RawBytes

/-- Python `x or y` on an optional string: the first operand when it is a
non-empty string, otherwise the second. -/
def pyOrStr (x : Option (List Char)) (y : List Char) : List Char :=
  match x with
  | some s => if s = [] then y else s
  | none => y

/-- `_download_caption_entry(ydl, entry)`: give up on a falsy URL; fetch the
URL (any exception gives `none`); for ext `json3` parse and convert the
structured payload (parse failure gives `none`); for any other ext decode
the bytes as text and strip subtitle markup. -/
def downloadCaptionEntry (net : Net) (entry : CaptionEntry) : Option (List Char) :=
  let url := pyOrStr entry.url []
  let ext := (pyOrStr entry.ext "json3".data).map Char.toLower
  if url = [] then none
  else
    match net url with
    | none => none
    | some data =>
      if ext = "json3".data then
        match data.asJson with
        | none => none
        | some payload => some (json3PayloadToText payload)
      else some (stripCaptionMarkup data.asText)

/-- Python truthiness of `_download_caption_entry`'s result: a non-`None`,
non-empty string. -/
def textTruthy : Option (List Char) → Bool
  | some (_ :: _) => true
  | _ => false

/-- First element of `l` on which `f` fires, mirroring an early `return`
from a loop that tries candidates in order. -/
def firstSome {α β : Type} (l : List α) (f : α → Option β) : Option β :=
  match l with
  | [] => none
  | a :: rest =>
    match f a with
    | some b => some b
    | none => firstSome rest f

/-- The inner `for entry in _ensure_list(entries)` loop of
`_extract_caption_text` (`text = _download_caption_entry(...); if text:
return text`): return the first descriptor whose download is truthy. -/
def firstEntryText (net : Net) : List CaptionEntry → Option (List Char)
  | [] => none
  | e :: rest =>
    let text := downloadCaptionEntry net e
    if textTruthy text then text else firstEntryText net rest

/-- One `(lang, source)` step of the primary search: skip when the catalog
has no truthy entry for the language, else try its descriptors. -/
def tryLang (net : Net) (source : Catalog) (lang : List Char) : Option (List Char) :=
  match catGet source lang with
  | none => none
  | some ev => if entriesTruthy ev then firstEntryText net (ensureList ev) else none

/-- The primary search of `_extract_caption_text`: languages in preference
order (outer loop), catalogs in priority order (inner loop), first truthy
decode wins. -/
def primaryPhase (net : Net) (sources : List Catalog) (languages : List (List Char)) :
    Option (List Char) :=
  firstSome languages (fun lang => firstSome sources (fun source => tryLang net source lang))

/-- The fallback search of `_extract_caption_text` ("fallback to any
remaining caption"): every catalog in priority order, every stored value
regardless of language, every descriptor. -/
def fallbackPhase (net : Net) (sources : List Catalog) : Option (List Char) :=
  firstSome sources (fun source =>
    firstSome (catValues source) (fun ev => firstEntryText net (ensureList ev)))

/-- `_extract_caption_text(ydl, info, languages)`: build the ordered catalog
list (empty means `None` immediately); run the primary language-preference
search, then the any-caption fallback; `none` when nothing yields text. -/
def extractCaptionText (net : Net) (info : VideoInfo) (languages : List (List Char)) :
    Option (List Char) :=
  let sources := orderedCaptionSources info
  if sources = [] then none
  else
    match primaryPhase net sources languages with
    | some t => some t
    | none => fallbackPhase net sources

/-- The `TranscriptResult` dataclass of `transcripts.py`. -/
structure TranscriptResult where
  video_id : List Char
  success : Bool
  text : Option (List Char) := none
  error : Option (List Char) := none
deriving DecidableEq

/-- How processing one video inside the `fetch_transcripts` loop can end:
`_fetch_single_transcript` returns text, raises `TranscriptLookupError`,
lets a yt-dlp `DownloadError` escape, or raises any other exception.  The
oracle assigns one of these to every loop position, abstracting the network
and the Resolver/Decoder below it. -/
inductive FetchOutcome where
  | success (text : List Char)
  | lookupError (msg : List Char)
  | downloadError (msg : List Char)
  | otherError (msg : List Char)

/-- The body of the `for video_id in video_ids` loop of `fetch_transcripts`:
each outcome is converted to exactly one appended `TranscriptResult`, with
the `DownloadError` and generic handlers prefixing their messages as the
source's f-strings do. -/
def resultFor (video_id : List Char) : FetchOutcome → TranscriptResult
  | .success t => { video_id := video_id, success := true, text := some t }
  | .lookupError m => { video_id := video_id, success := false, error := some m }
  | .downloadError m =>
    { video_id := video_id, success := false, error := some ("yt-dlp error: ".data ++ m) }
  | .otherError m =>
    { video_id := video_id, success := false, error := some ("Unexpected error: ".data ++ m) }

/-- The `for video_id in video_ids` loop of `fetch_transcripts`, carrying the
loop position for the oracle: every iteration appends exactly one result and
no outcome interrupts the loop (every exception class is caught). -/
def fetchGo (outcome : Nat → FetchOutcome) : Nat → List (List Char) → List TranscriptResult
  | _, [] => []
  | i, id :: rest => resultFor id (outcome i) :: fetchGo outcome (i + 1) rest

/-- `fetch_transcripts(video_ids, languages)` with the per-video work
abstracted by the outcome oracle (indexed by loop position, so duplicate IDs
may behave differently). -/
def fetchTranscripts (outcome : Nat → FetchOutcome) (video_ids : List (List Char)) :
    List TranscriptResult :=
  fetchGo outcome 0 video_ids

/-- One element of a list-shaped message content.  Dict values and attribute
values are modelled as optional strings (the shapes the OpenAI client
produces); `otherI` is any item none of the `isinstance`/`hasattr` branches
accept, which contributes nothing. -/
inductive MsgItem where
  | strI (s : List Char)
  | dictI (text content : Option (List Char))
  | attrTextI (s : Option (List Char))
  | attrContentI (s : Option (List Char))
  | otherI

/-- The normalised content of a completion choice's message, as consumed by
`_message_content_to_text`: absent/`None`, a plain string, a list of mixed
items, or some other object (turned into its `str()` rendering). -/
inductive MessageContent where
  | noneC
  | str (s : List Char)
  | items (l : List MsgItem)
  | other (s : List Char)

/-- The `text_piece` computed for one item of a list-shaped message content:
a string item is kept; a dict tries `"text"` then `"content"` then `""`
under Python `or`; an object tries its `text` then `content` attribute. -/
def msgItemText : MsgItem → List Char
  | .strI s => s
  | .dictI t c => pyOrStr t (pyOrStr c [])
  | .attrTextI s => pyOrStr s []
  | .attrContentI s => pyOrStr s []
  | .otherI => []

/-- `_message_content_to_text(message_content)`: falsy content gives `""`; a
string passes through; a list concatenates its items' non-empty text pieces
with no separator; anything else is its `str()` rendering. -/
def messageContentToText : MessageContent → List Char
  | .noneC => []
  | .str s => s
  | .items l =>
    if l.isEmpty then []
    else ((l.map msgItemText).filter (fun p => !p.isEmpty)).flatten
  | .other s => s

/-- One choice of a completion response, already reduced to the message
content that `message_obj.get("content", "")` / `getattr(message_obj,
"content", "")` extracts (both shapes yield the same `MessageContent`). -/
structure ChatChoice where
  content : MessageContent

/-- A completion response: `getattr(response, "choices", []) or []`. -/
structure ChatResponse where
  choices : List ChatChoice

/-- The completion-call oracle: for the 1-based chunk position, either a
response or a raised exception's message (`.error`).  The request payload
(prompt text, model-dependent token/temperature parameters) is a function of
the position and does not influence the embedded control flow, so it is
folded into the oracle's argument. -/
abbrev CompletionApi : Type := Nat → Except (List Char) ChatResponse

/-- The message of the `RuntimeError` raised when a response has no
choices. -/
def noChoicesMsg : List Char :=
  "AI returned no choices; formatted content unavailable.".data

/-- The `for i, chunk in enumerate(chunks, start=1)` loop of
`format_document_with_ai`: issue the call, fail on a missing choice list,
normalise the message content, substitute the original chunk when the
normalised text strips to empty, and collect the per-chunk outputs; any
`.error` aborts the remaining iterations (to be wrapped by the caller). -/
def formatLoop (api : CompletionApi) : List (List Char) → Nat → Except (List Char) (List (List Char))
  | [], _ => .ok []
  | chunk :: rest, i =>
    match api i with
    | .error e => .error e
    | .ok resp =>
      match resp.choices with
      | [] => .error noChoicesMsg
      | ch :: _ =>
        let ft := messageContentToText ch.content
        let ft2 := if pyStrip ft = [] then chunk else ft
        match formatLoop api rest (i + 1) with
        | .error e => .error e
        | .ok outs => .ok (ft2 :: outs)

/-- The message of the oversized-document `RuntimeError`, including the
document length as the source's f-string interpolates it. -/
def tooLargeMsg (len : Nat) : List Char :=
  "Document too large for AI formatting (".data ++ (Nat.repr len).data ++
    " chars). Please shorten or skip AI formatting.".data

/-- `format_document_with_ai(content, model)`: fail when the `openai` import
failed, when the API key is falsy, or when the document exceeds 1,000,000
characters; split into chunks of at most 10,000 characters; an empty chunk
list returns `""`; otherwise run the per-chunk loop, wrapping any exception
from it, and join the outputs with newlines.  The environment (import
success, `OPENAI_API_KEY`) and the network are explicit arguments. -/
def formatDocumentWithAi (openaiAvailable : Bool) (apiKey : Option (List Char))
    (api : CompletionApi) (content : List Char) : Except (List Char) (List Char) :=
  if openaiAvailable = false then
    .error "openai package not installed. Install via `pip install openai>=1.0.0` to use AI formatting.".data
  else if pyOrStr apiKey [] = [] then
    .error "OPENAI_API_KEY environment variable not set.".data
  else if 1000000 < content.length then
    .error (tooLargeMsg content.length)
  else
    match splitIntoChunks content 10000 with
    | [] => .ok []
    | chunk :: rest =>
      match formatLoop api (chunk :: rest) 1 with
      | .error e => .error ("AI formatting failed: ".data ++ e)
      | .ok outs => .ok (joinNl outs)

theorem rfindIn_lt (s : List Char) (c : Char) (stop i : Nat)
    (h : rfindIn s c stop = some i) : i < stop := by
  induction stop with
  | zero => simp [rfindIn] at h
  | succ st ih =>
    rw [rfindIn] at h
    split at h
    · exact (Option.some.inj h) ▸ Nat.lt_succ_self st
    · exact Nat.lt_succ_of_lt (ih h)

theorem pickFrom_pos (found : Option Nat) (next : Nat) (h : 0 < next) :
    0 < pickFrom found next := by
  cases found with
  | none => exact h
  | some i =>
    rw [pickFrom]
    by_cases hi : 0 < i
    · rwa [if_pos hi]
    · rwa [if_neg hi]

theorem pickFrom_le (found : Option Nat) (next bound : Nat)
    (hf : ∀ i, found = some i → i ≤ bound) (hn : next ≤ bound) :
    pickFrom found next ≤ bound := by
  cases found with
  | none => exact hn
  | some i =>
    rw [pickFrom]
    by_cases hi : 0 < i
    · rw [if_pos hi]; exact hf i rfl
    · rw [if_neg hi]; exact hn

theorem pickSplit_pos (s : List Char) (e : Nat) (h : 0 < e) :
    0 < pickSplit s e :=
  pickFrom_pos _ _ (pickFrom_pos _ _ h)

theorem pickSplit_le (s : List Char) (e : Nat) : pickSplit s e ≤ e := by
  refine pickFrom_le _ _ _ ?_ ?_
  · exact fun i hi => Nat.le_of_lt (rfindIn_lt s '\n' e i hi)
  · refine pickFrom_le _ _ _ ?_ (Nat.le_refl e)
    exact fun j hj => Nat.le_of_lt (rfindIn_lt s ' ' e j hj)

/-- The cut index chosen for a non-empty suffix with a positive chunk size is
positive and at most `min n len`. -/
theorem splitAt_bounds (n : Nat) (hn : 1 ≤ n) (s : List Char) (hs : s ≠ []) :
    0 < (if min n s.length < s.length then pickSplit s (min n s.length) else min n s.length) ∧
      (if min n s.length < s.length then pickSplit s (min n s.length) else min n s.length) ≤
        min n s.length := by
  have hlen : 0 < s.length := List.length_pos.mpr hs
  have he : 0 < min n s.length := Nat.lt_min.mpr ⟨hn, hlen⟩
  by_cases hcase : min n s.length < s.length
  · rw [if_pos hcase]
    exact ⟨pickSplit_pos s _ he, pickSplit_le s _⟩
  · rw [if_neg hcase]
    exact ⟨he, Nat.le_refl _⟩

/-- Every chunk `splitGo` emits (for any fuel) is non-empty and at most `n`
characters long, provided `n ≥ 1`. -/
theorem splitGo_chunk_bounds (n : Nat) (hn : 1 ≤ n) (fuel : Nat) :
    ∀ (s : List Char), ∀ chunk ∈ splitGo n fuel s, chunk ≠ [] ∧ chunk.length ≤ n := by
  induction fuel with
  | zero => intro s chunk h; simp [splitGo] at h
  | succ f ih =>
    intro s chunk h
    cases s with
    | nil => simp [splitGo] at h
    | cons a s' =>
      simp only [splitGo] at h
      rcases List.mem_cons.mp h with hc | hc
      · subst hc
        obtain ⟨hpos, hle⟩ := splitAt_bounds n hn (a :: s') (by simp)
        refine ⟨?_, ?_⟩
        · apply List.ne_nil_of_length_pos
          rw [List.length_take]
          exact Nat.lt_min.mpr ⟨hpos, by simp⟩
        · rw [List.length_take]
          exact le_trans (le_trans (Nat.min_le_left _ _) hle) (Nat.min_le_left _ _)
      · exact ih _ chunk hc

theorem filter_dropWhile_sep (l : List Char) :
    (l.dropWhile isChunkSep).filter (fun c => !isChunkSep c) =
      l.filter (fun c => !isChunkSep c) := by
  induction l with
  | nil => rfl
  | cons a l ih =>
    by_cases h : isChunkSep a
    · rw [List.dropWhile_cons_of_pos h, ih, List.filter_cons]
      simp [h]
    · rw [List.dropWhile_cons_of_neg h]

theorem joinNl_filter (L : List (List Char)) :
    (joinNl L).filter (fun c => !isChunkSep c) =
      (L.map (List.filter (fun c => !isChunkSep c))).flatten := by
  induction L with
  | nil => rfl
  | cons p L ih =>
    cases L with
    | nil => simp [joinNl]
    | cons q r =>
      rw [joinNl, List.filter_append, List.filter_cons]
      simp only [show (!isChunkSep '\n') = false from rfl, Bool.false_eq_true, if_false]
      rw [ih]
      simp

/-- For adequate fuel, the chunks of `splitGo` carry exactly the
non-separator characters of the input, in order: only space/newline runs at
the cut points are consumed. -/
theorem splitGo_filter (n : Nat) (hn : 1 ≤ n) (fuel : Nat) :
    ∀ (s : List Char), s.length ≤ fuel →
      ((splitGo n fuel s).map (List.filter (fun c => !isChunkSep c))).flatten =
        s.filter (fun c => !isChunkSep c) := by
  induction fuel with
  | zero =>
    intro s hs
    have : s = [] := List.eq_nil_of_length_eq_zero (Nat.le_zero.mp hs)
    subst this
    rfl
  | succ f ih =>
    intro s hs
    cases s with
    | nil => rfl
    | cons a s' =>
      simp only [splitGo]
      obtain ⟨hpos, hle⟩ := splitAt_bounds n hn (a :: s') (by simp)
      rw [List.map_cons, List.flatten_cons, ih, filter_dropWhile_sep,
        ← List.filter_append, List.take_append_drop]
      calc (List.dropWhile isChunkSep (List.drop _ (a :: s'))).length
          ≤ (List.drop _ (a :: s')).length :=
            (List.dropWhile_sublist isChunkSep).length_le
        _ ≤ (a :: s').length - 1 := by
            rw [List.length_drop]
            exact Nat.sub_le_sub_left hpos _
        _ ≤ f := by
            have := hs
            simp only [List.length_cons] at this ⊢
            omega

theorem firstSome_cons_some {α β : Type} (f : α → Option β) (a : α) (l : List α)
    (b : β) (h : f a = some b) : firstSome (a :: l) f = some b := by
  rw [firstSome, h]

theorem firstSome_none {α β : Type} (f : α → Option β) (l : List α)
    (h : ∀ a ∈ l, f a = none) : firstSome l f = none := by
  induction l with
  | nil => rfl
  | cons a rest ih =>
    rw [firstSome, h a (List.mem_cons_self a _)]
    exact ih (fun x hx => h x (List.mem_cons_of_mem a hx))

theorem firstSome_append_none {α β : Type} (f : α → Option β) (l1 l2 : List α)
    (h : ∀ a ∈ l1, f a = none) :
    firstSome (l1 ++ l2) f = firstSome l2 f := by
  induction l1 with
  | nil => rfl
  | cons a rest ih =>
    rw [List.cons_append, firstSome, h a (List.mem_cons_self a _)]
    exact ih (fun x hx => h x (List.mem_cons_of_mem a hx))

theorem firstSome_eq_some {α β : Type} (f : α → Option β) (l : List α) (b : β)
    (h : firstSome l f = some b) : ∃ a ∈ l, f a = some b := by
  induction l with
  | nil => simp [firstSome] at h
  | cons a rest ih =>
    rw [firstSome] at h
    cases hf : f a with
    | some b' =>
      rw [hf] at h
      exact ⟨a, List.mem_cons_self a _, hf.trans h⟩
    | none =>
      rw [hf] at h
      obtain ⟨x, hm, hx⟩ := ih h
      exact ⟨x, List.mem_cons_of_mem a hm, hx⟩

theorem firstSome_isSome {α β : Type} (f : α → Option β) (l : List α)
    (h : ∃ a ∈ l, (f a).isSome) : (firstSome l f).isSome := by
  induction l with
  | nil => simp at h
  | cons a rest ih =>
    rw [firstSome]
    cases hf : f a with
    | some b => rfl
    | none =>
      rcases h with ⟨x, hm, hx⟩
      rcases List.mem_cons.mp hm with hx' | hx'
      · subst hx'; rw [hf] at hx; simp at hx
      · exact ih ⟨x, hx', hx⟩

theorem textTruthy_isSome (o : Option (List Char)) (h : textTruthy o = true) :
    o.isSome := by
  cases o with
  | none => simp [textTruthy] at h
  | some t => rfl

theorem textTruthy_ne_nil (o : Option (List Char)) (t : List Char)
    (h : textTruthy o = true) (he : o = some t) : t ≠ [] := by
  subst he
  cases t with
  | nil => simp [textTruthy] at h
  | cons c cs => simp

theorem firstEntryText_isSome (net : Net) (es : List CaptionEntry)
    (h : ∃ e ∈ es, textTruthy (downloadCaptionEntry net e)) :
    (firstEntryText net es).isSome := by
  induction es with
  | nil => simp at h
  | cons e rest ih =>
    rw [firstEntryText]
    by_cases ht : textTruthy (downloadCaptionEntry net e)
    · simp only [ht, if_true]
      exact textTruthy_isSome _ ht
    · simp only [ht, if_false]
      rcases h with ⟨x, hm, hx⟩
      rcases List.mem_cons.mp hm with hx' | hx'
      · subst hx'; exact absurd hx ht
      · exact ih ⟨x, hx', hx⟩

theorem firstEntryText_ne_nil (net : Net) (es : List CaptionEntry) (t : List Char)
    (h : firstEntryText net es = some t) : t ≠ [] := by
  induction es with
  | nil => simp [firstEntryText] at h
  | cons e rest ih =>
    rw [firstEntryText] at h
    by_cases ht : textTruthy (downloadCaptionEntry net e)
    · simp only [ht, if_true] at h
      exact textTruthy_ne_nil _ t ht h
    · simp only [ht, if_false] at h
      exact ih h

theorem tryLang_ne_nil (net : Net) (source : Catalog) (lang : List Char)
    (t : List Char) (h : tryLang net source lang = some t) : t ≠ [] := by
  rw [tryLang] at h
  cases hg : catGet source lang with
  | none =>
    rw [hg] at h
    simp at h
  | some ev =>
    rw [hg] at h
    have h2 : (if entriesTruthy ev = true then firstEntryText net (ensureList ev) else none) = some t := h
    by_cases htr : entriesTruthy ev = true
    · rw [if_pos htr] at h2
      exact firstEntryText_ne_nil net _ t h2
    · rw [if_neg htr] at h2
      exact absurd h2 (by simp)

theorem primaryPhase_ne_nil (net : Net) (sources : List Catalog)
    (languages : List (List Char)) (t : List Char)
    (h : primaryPhase net sources languages = some t) : t ≠ [] := by
  obtain ⟨lang, _, hl⟩ := firstSome_eq_some _ _ _ h
  obtain ⟨source, _, hsrc⟩ := firstSome_eq_some _ _ _ hl
  exact tryLang_ne_nil net source lang t hsrc

theorem fallbackPhase_ne_nil (net : Net) (sources : List Catalog) (t : List Char)
    (h : fallbackPhase net sources = some t) : t ≠ [] := by
  obtain ⟨source, _, hsrc⟩ := firstSome_eq_some _ _ _ h
  obtain ⟨ev, _, hev⟩ := firstSome_eq_some _ _ _ hsrc
  exact firstEntryText_ne_nil net _ t hev

theorem fallbackPhase_isSome (net : Net) (sources : List Catalog)
    (h : ∃ src ∈ sources, ∃ kv ∈ src, ∃ e ∈ ensureList kv.2,
      textTruthy (downloadCaptionEntry net e)) :
    (fallbackPhase net sources).isSome := by
  obtain ⟨src, hsrc, kv, hkv, e, he, htr⟩ := h
  refine firstSome_isSome _ _ ⟨src, hsrc, ?_⟩
  refine firstSome_isSome _ _ ⟨kv.2, List.mem_map_of_mem Prod.snd hkv, ?_⟩
  exact firstEntryText_isSome net _ ⟨e, he, htr⟩

theorem resultFor_video_id (id : List Char) (o : FetchOutcome) :
    (resultFor id o).video_id = id := by
  cases o <;> rfl

theorem fetchGo_map_video_id (outcome : Nat → FetchOutcome) (ids : List (List Char)) :
    ∀ i, (fetchGo outcome i ids).map TranscriptResult.video_id = ids := by
  induction ids with
  | nil => intro i; rfl
  | cons id rest ih =>
    intro i
    rw [fetchGo, List.map_cons, resultFor_video_id, ih]

theorem fetchGo_mem (outcome : Nat → FetchOutcome) (ids : List (List Char)) :
    ∀ i r, r ∈ fetchGo outcome i ids → ∃ id o, r = resultFor id o := by
  induction ids with
  | nil => intro i r h; simp [fetchGo] at h
  | cons id rest ih =>
    intro i r h
    rw [fetchGo] at h
    rcases List.mem_cons.mp h with hr | hr
    · exact ⟨id, outcome i, hr⟩
    · exact ih (i + 1) r hr

theorem resultFor_exclusive (id : List Char) (o : FetchOutcome) :
    ((resultFor id o).success = true →
      (resultFor id o).text.isSome ∧ (resultFor id o).error = none) ∧
    ((resultFor id o).success = false →
      (resultFor id o).error.isSome ∧ (resultFor id o).text = none) := by
  cases o <;> simp [resultFor]

/-- C1: `fetch_transcripts` produces exactly one `TranscriptResult` per
input video ID, in input order, for every pattern of per-video outcomes
(success, lookup-not-found, provider download error, or any other
exception): no failure interrupts the loop, so each input position
contributes exactly one result. -/
theorem fetch_transcripts_one_result_per_id (outcome : Nat → FetchOutcome)
    (video_ids : List (List Char)) :
    (fetchTranscripts outcome video_ids).length = video_ids.length ∧
      (fetchTranscripts outcome video_ids).map TranscriptResult.video_id = video_ids := by
  have hmap := fetchGo_map_video_id outcome video_ids 0
  refine ⟨?_, hmap⟩
  calc (fetchTranscripts outcome video_ids).length
      = ((fetchTranscripts outcome video_ids).map TranscriptResult.video_id).length :=
        (List.length_map _ _).symm
    _ = video_ids.length := by unfold fetchTranscripts; rw [hmap]

/-- C8: every `TranscriptResult` that `fetch_transcripts` emits populates
exactly one of the `text` / `error` fields, as dictated by the `success`
flag: success carries `text` and no `error`, failure carries `error` and no
`text`. -/
theorem transcript_result_exclusive_fields (outcome : Nat → FetchOutcome)
    (video_ids : List (List Char)) (r : TranscriptResult)
    (h : r ∈ fetchTranscripts outcome video_ids) :
    (r.success = true → r.text.isSome ∧ r.error = none) ∧
      (r.success = false → r.error.isSome ∧ r.text = none) := by
  obtain ⟨id, o, hr⟩ := fetchGo_mem outcome video_ids 0 r h
  subst hr
  exact resultFor_exclusive id o

/-- Witness for C8 at a concrete run: one successful video. -/
theorem transcript_result_exclusive_fields_witness :
    resultFor "v".data (.success "t".data) ∈
        fetchTranscripts (fun _ => .success "t".data) ["v".data] ∧
      ((resultFor "v".data (.success "t".data)).success = true →
        (resultFor "v".data (.success "t".data)).text.isSome ∧
          (resultFor "v".data (.success "t".data)).error = none) ∧
      ((resultFor "v".data (.success "t".data)).success = false →
        (resultFor "v".data (.success "t".data)).error.isSome ∧
          (resultFor "v".data (.success "t".data)).text = none) := by
  refine ⟨by decide, ?_⟩
  exact transcript_result_exclusive_fields (fun _ => .success "t".data) ["v".data]
    (resultFor "v".data (.success "t".data)) (by decide)

/-- C4: for every non-empty text and every chunk size N ≥ 1, each chunk
`_split_into_chunks` returns is non-empty and at most N characters long. -/
theorem split_chunks_nonempty_and_bounded (text : List Char) (n : Nat)
    (hn : 1 ≤ n) (_htext : text ≠ []) :
    ∀ chunk ∈ splitIntoChunks text n, chunk ≠ [] ∧ chunk.length ≤ n := by
  intro chunk hc
  exact splitGo_chunk_bounds n hn text.length text chunk hc

/-- Witness for C4: splitting `"ab cd"` at size 3. -/
theorem split_chunks_nonempty_and_bounded_witness :
    (1 ≤ 3 ∧ "ab cd".data ≠ []) ∧
      ∀ chunk ∈ splitIntoChunks "ab cd".data 3, chunk ≠ [] ∧ chunk.length ≤ 3 := by
  refine ⟨by decide, ?_⟩
  exact split_chunks_nonempty_and_bounded "ab cd".data 3 (by decide) (by decide)

/-- C5 counterexample: with text `"abc"` and chunk size 2 the chunker must
hard-cut inside the single word `"abc"`, so joining the chunks with the
separator and collapsing whitespace yields the words `["ab", "c"]`, not the
original word sequence `["abc"]` — the claimed word-sequence preservation
fails for words longer than the chunk size. -/
theorem split_word_sequence_counterexample :
    wordsOf (joinNl (splitIntoChunks "abc".data 2)) ≠ wordsOf "abc".data := by
  decide

/-- C5 (amended): for every text and chunk size N ≥ 1, concatenating the
chunks of `_split_into_chunks(text, N)` joined by a single separator
preserves exactly the original sequence of non-whitespace characters — no
character is duplicated, dropped or reordered; only space/newline runs at
the cut points are collapsed (a single word longer than the context allows
may therefore be split in two, but never altered or lost). -/
theorem split_preserves_nonseparator_chars (text : List Char) (n : Nat)
    (hn : 1 ≤ n) :
    (joinNl (splitIntoChunks text n)).filter (fun c => !isChunkSep c) =
      text.filter (fun c => !isChunkSep c) := by
  rw [joinNl_filter]
  exact splitGo_filter n hn text.length text (Nat.le_refl _)

/-- Witness for the amended C5: splitting `"ab c"` at size 2. -/
theorem split_preserves_nonseparator_chars_witness :
    1 ≤ 2 ∧
      (joinNl (splitIntoChunks "ab c".data 2)).filter (fun c => !isChunkSep c) =
        "ab c".data.filter (fun c => !isChunkSep c) :=
  ⟨by decide, split_preserves_nonseparator_chars "ab c".data 2 (by decide)⟩

theorem orderedCaptionSources_requested_head (reqCat : Catalog)
    (subs auto : Option Catalog) (h : reqCat ≠ []) :
    orderedCaptionSources ⟨some reqCat, subs, auto⟩ =
      reqCat ::
        ((match subs with
          | some c => if c = ([] : Catalog) then [] else [c]
          | none => []) ++
         (match auto with
          | some c => if c = ([] : Catalog) then [] else [c]
          | none => [])) := by
  simp only [orderedCaptionSources]
  rw [if_neg h]
  rfl

/-- C2 counterexample: a video whose manual-subtitles catalog holds one
descriptor (so the catalogs contain at least one descriptor), but whose
download fails (the network oracle raises for every URL): the Resolver
reports not-found, contradicting the claim that it never reports not-found
when any descriptor exists. -/
theorem resolver_not_found_despite_descriptor :
    (∃ src ∈ orderedCaptionSources
        ⟨none, some [("fr".data, EntriesVal.single ⟨some "u".data, some "vtt".data⟩)], none⟩,
      ∃ kv ∈ src, ensureList kv.2 ≠ []) ∧
      extractCaptionText (fun _ => none)
        ⟨none, some [("fr".data, EntriesVal.single ⟨some "u".data, some "vtt".data⟩)], none⟩
        ["en".data] = none := by
  decide

/-- C2 (amended): whenever at least one descriptor in the ordered caption
catalogs decodes to non-empty text under the network oracle, the Resolver
returns non-empty caption text and never reports not-found — in particular a
caption available only in a language off the preference list is still
returned via the fallback search phase. -/
theorem resolver_returns_text_if_any_descriptor_decodes (net : Net)
    (info : VideoInfo) (languages : List (List Char))
    (h : ∃ src ∈ orderedCaptionSources info, ∃ kv ∈ src, ∃ e ∈ ensureList kv.2,
      textTruthy (downloadCaptionEntry net e)) :
    ∃ t, extractCaptionText net info languages = some t ∧ t ≠ [] := by
  have hsne : orderedCaptionSources info ≠ [] := by
    obtain ⟨src, hsrc, -⟩ := h
    exact List.ne_nil_of_mem hsrc
  simp only [extractCaptionText]
  rw [if_neg hsne]
  cases hp : primaryPhase net (orderedCaptionSources info) languages with
  | some t =>
    exact ⟨t, rfl, primaryPhase_ne_nil _ _ _ _ hp⟩
  | none =>
    have hfs := fallbackPhase_isSome net _ h
    obtain ⟨t, ht⟩ := Option.isSome_iff_exists.mp hfs
    exact ⟨t, ht, fallbackPhase_ne_nil _ _ _ ht⟩

/-- Witness for the amended C2: the only caption is French while only
English is requested; its text is found by the fallback phase. -/
theorem resolver_returns_text_witness :
    (∃ src ∈ orderedCaptionSources
        ⟨none, some [("fr".data, EntriesVal.single ⟨some "u".data, some "vtt".data⟩)], none⟩,
      ∃ kv ∈ src, ∃ e ∈ ensureList kv.2,
        textTruthy (downloadCaptionEntry
          (fun u => if u = "u".data then some ⟨none, "bonjour".data⟩ else none) e)) ∧
      ∃ t,
        extractCaptionText
            (fun u => if u = "u".data then some ⟨none, "bonjour".data⟩ else none)
            ⟨none, some [("fr".data, EntriesVal.single ⟨some "u".data, some "vtt".data⟩)], none⟩
            ["en".data] = some t ∧ t ≠ [] :=
  ⟨by decide, resolver_returns_text_if_any_descriptor_decodes _ _ _ (by decide)⟩

/-- C3: when the primary search reaches a requested language (every earlier
preference matches nothing in any catalog) and the preferred/requested
catalog — which heads the catalog priority order — holds a truthy entry for
that language whose descriptors decode to non-empty text `t`, the Resolver
returns exactly `t`, whatever the manual or automatic catalogs (including a
manual entry for the same language) would have produced: language preference
is the outer loop and requested > manual > automatic the inner loop. -/
theorem resolver_catalog_priority_respected (net : Net) (reqCat : Catalog)
    (subs auto : Option Catalog) (pre post : List (List Char)) (lang : List Char)
    (ev : EntriesVal) (t : List Char)
    (hreq : reqCat ≠ [])
    (hpre : ∀ l ∈ pre, ∀ src ∈ orderedCaptionSources ⟨some reqCat, subs, auto⟩,
      tryLang net src l = none)
    (hget : catGet reqCat lang = some ev)
    (htruthy : entriesTruthy ev = true)
    (hdec : firstEntryText net (ensureList ev) = some t) :
    extractCaptionText net ⟨some reqCat, subs, auto⟩ (pre ++ lang :: post) = some t := by
  have hhead := orderedCaptionSources_requested_head reqCat subs auto hreq
  have hsne : orderedCaptionSources ⟨some reqCat, subs, auto⟩ ≠ [] := by
    rw [hhead]
    exact List.cons_ne_nil _ _
  have htl : tryLang net reqCat lang = some t := by
    rw [tryLang, hget]
    show (if entriesTruthy ev = true then firstEntryText net (ensureList ev) else none) = some t
    rw [if_pos htruthy]
    exact hdec
  have hprim : primaryPhase net (orderedCaptionSources ⟨some reqCat, subs, auto⟩)
      (pre ++ lang :: post) = some t := by
    rw [primaryPhase,
      firstSome_append_none _ pre _
        (fun l hl => firstSome_none _ _ (fun src hsrc => hpre l hl src hsrc))]
    apply firstSome_cons_some
    rw [hhead]
    exact firstSome_cons_some _ _ _ _ htl
  simp only [extractCaptionText]
  rw [if_neg hsne, hprim]

/-- Witness for C3, the spec's own example: preferred catalog `en → [A]`,
manual catalog `en → [B]`; URL A decodes to `"alpha"`, URL B to `"beta"`;
the result is the text from URL A. -/
theorem resolver_catalog_priority_respected_witness :
    extractCaptionText
        (fun u => if u = "A".data then some ⟨none, "alpha".data⟩
          else if u = "B".data then some ⟨none, "beta".data⟩ else none)
        ⟨some [("en".data, EntriesVal.list [⟨some "A".data, some "vtt".data⟩])],
         some [("en".data, EntriesVal.list [⟨some "B".data, some "vtt".data⟩])], none⟩
        ([] ++ "en".data :: []) = some "alpha".data := by
  exact resolver_catalog_priority_respected _ _ _ _ [] [] "en".data
    (EntriesVal.list [⟨some "A".data, some "vtt".data⟩]) "alpha".data
    (by decide) (fun l hl => absurd hl (List.not_mem_nil l)) (by decide) (by decide)
    (by decide)

/-- C9: decoding the subtitle-markup payload made of a `WEBVTT` header line,
the timestamp line `00:00:01.000 --> 00:00:02.000`, a cue-index line `1` and
the content line `Hi there` yields exactly `"Hi there"`: all markup lines
are dropped and the surviving content lines are joined with single
spaces. -/
theorem webvtt_markup_example_decodes :
    stripCaptionMarkup "WEBVTT\n00:00:01.000 --> 00:00:02.000\n1\nHi there".data =
      "Hi there".data := by
  decide

/-- C6: when the completion call for a chunk returns a response with at
least one choice whose normalised message content strips to empty, the
per-chunk loop of `format_document_with_ai` raises nothing for that chunk
and places the original chunk text, unchanged, at that chunk's position of
the output: the step reduces to prepending the untouched chunk onto
whatever the remaining chunks produce. -/
theorem empty_ai_content_keeps_original_chunk (api : CompletionApi)
    (chunk : List Char) (rest : List (List Char)) (i : Nat) (resp : ChatResponse)
    (ch : ChatChoice) (chs : List ChatChoice)
    (hapi : api i = .ok resp) (hch : resp.choices = ch :: chs)
    (hempty : pyStrip (messageContentToText ch.content) = []) :
    formatLoop api (chunk :: rest) i =
      (formatLoop api rest (i + 1)).map (chunk :: ·) := by
  simp only [formatLoop, hapi, hch, hempty]
  cases formatLoop api rest (i + 1) <;> rfl

/-- Witness for C6: a whitespace-only completion for the single chunk. -/
theorem empty_ai_content_keeps_original_chunk_witness :
    pyStrip (messageContentToText (MessageContent.str "  ".data)) = [] ∧
      formatLoop (fun _ => Except.ok ⟨[⟨MessageContent.str "  ".data⟩]⟩)
          ["hi".data] 1 =
        (formatLoop (fun _ => Except.ok ⟨[⟨MessageContent.str "  ".data⟩]⟩) [] 2).map
          (fun l => "hi".data :: l) :=
  ⟨by decide,
    empty_ai_content_keeps_original_chunk _ "hi".data [] 1 _ _ [] rfl rfl (by decide)⟩

/-- C7: with the client library importable and a non-empty API key
configured, a document longer than 1,000,000 characters makes
`format_document_with_ai` fail with the oversized-document error before the
chunk loop runs: the result is that error for every completion oracle, so no
completion call can have been issued. -/
theorem oversized_document_fails_without_call (k content : List Char)
    (api1 api2 : CompletionApi) (hk : k ≠ []) (hlen : 1000000 < content.length) :
    formatDocumentWithAi true (some k) api1 content =
        .error (tooLargeMsg content.length) ∧
      formatDocumentWithAi true (some k) api1 content =
        formatDocumentWithAi true (some k) api2 content := by
  have h1 : ∀ api : CompletionApi,
      formatDocumentWithAi true (some k) api content =
        .error (tooLargeMsg content.length) := by
    intro api
    unfold formatDocumentWithAi
    rw [if_neg (by simp : ¬ (true = false))]
    have hkey : pyOrStr (some k) [] = k := by
      rw [pyOrStr]
      exact if_neg hk
    rw [hkey, if_neg hk, if_pos hlen]
  exact ⟨h1 api1, (h1 api1).trans (h1 api2).symm⟩

/-- Witness for C7: a 1,000,001-character document. -/
theorem oversized_document_fails_without_call_witness :
    ("x".data ≠ ([] : List Char)) ∧
      1000000 < (List.replicate 1000001 'a').length ∧
      formatDocumentWithAi true (some "x".data) (fun _ => .error [])
          (List.replicate 1000001 'a') =
        .error (tooLargeMsg (List.replicate 1000001 'a').length) := by
  have hlen : 1000000 < (List.replicate 1000001 'a').length := by
    rw [List.length_replicate]
    norm_num
  exact ⟨by decide, hlen,
    (oversized_document_fails_without_call "x".data _ (fun _ => .error [])
      (fun _ => .error []) (by decide) hlen).1⟩

/-- C10: with the client library importable and a non-empty API key
configured, empty input content makes `format_document_with_ai` return the
empty string while issuing no completion call (the result does not depend on
the completion oracle), because `_split_into_chunks` returns an empty chunk
list for empty text. -/
theorem empty_content_returns_empty (k : List Char) (api1 api2 : CompletionApi)
    (hk : k ≠ []) :
    formatDocumentWithAi true (some k) api1 [] = .ok [] ∧
      formatDocumentWithAi true (some k) api1 [] =
        formatDocumentWithAi true (some k) api2 [] ∧
      splitIntoChunks [] 10000 = [] := by
  have h1 : ∀ api : CompletionApi,
      formatDocumentWithAi true (some k) api [] = .ok [] := by
    intro api
    unfold formatDocumentWithAi
    rw [if_neg (by simp : ¬ (true = false))]
    have hkey : pyOrStr (some k) [] = k := by
      rw [pyOrStr]
      exact if_neg hk
    rw [hkey, if_neg hk, if_neg (by simp : ¬ (1000000 < ([] : List Char).length))]
    rfl
  exact ⟨h1 api1, (h1 api1).trans (h1 api2).symm, rfl⟩

/-- Witness for C10 at a concrete key and oracles. -/
theorem empty_content_returns_empty_witness :
    ("x".data ≠ ([] : List Char)) ∧
      formatDocumentWithAi true (some "x".data) (fun _ => .error []) [] = .ok [] ∧
      splitIntoChunks [] 10000 = [] := by
  have h := empty_content_returns_empty "x".data (fun _ => .error [])
    (fun _ => .error []) (by decide)
  exact ⟨by decide, h.1, h.2.2⟩

end WrestlingLogger
